import Mathlib

/-!
Verification of the web-parser module `src/tools/web_parser_bs4.py`.

Python strings are modelled as `List Char` (a Python `str` is a sequence of
characters).  The module defines two functions:

* `clean_text(text)` = `' '.join(text.split())`
* `extract_text(url, method="beautifulsoup")`, which on the supported branch
  executes `return extract_text_bs4(url)`.  The name `extract_text_bs4` is not
  bound anywhere in the module (the module only defines `clean_text` and
  `extract_text`, and only imports `requests` and `bs4`), so by the semantics
  of Python name resolution evaluating that expression raises
  `NameError: name 'extract_text_bs4' is not defined` before any call, fetch,
  parse or cleaning happens.  The embedding therefore returns that error on
  the supported branch.  The second component of the result is the log of
  URLs fetched over the network during the call: no reachable code path of
  `extract_text` performs a fetch, so it is empty on both branches.
-/

set_option linter.unusedVariables false

/-- The set of characters on which the Python method `str.split()` (with no
argument) splits: ASCII whitespace.  (Python also splits on the rarer Unicode
whitespace code points; the claims under study only involve the ASCII ones,
and every theorem below is proved for an arbitrary string over this
predicate.) -/
def isPySpace (c : Char) : Bool :=
  c == ' ' || c == '\t' || c == '\n' || c == '\r' || c == '\x0b' || c == '\x0c'

/-- Worker for `pySplit`: scans the string left to right, accumulating the
current (reversed) run of non-whitespace characters in `acc` and emitting it
as a token whenever a whitespace character or the end of input is reached.
This is the behaviour of the Python builtin `str.split()`: maximal
whitespace-free runs, in order, with no empty tokens. -/
def pySplitAux : List Char → List Char → List (List Char)
  | acc, [] => if acc = [] then [] else [acc.reverse]
  | acc, c :: rest =>
    if isPySpace c then
      if acc = [] then pySplitAux [] rest
      else acc.reverse :: pySplitAux [] rest
    else pySplitAux (c :: acc) rest

/-- Embedding of the Python expression `text.split()` (no separator
argument): split on runs of whitespace, discarding empty tokens. -/
def pySplit (text : List Char) : List (List Char) :=
  pySplitAux [] text

/-- Embedding of the Python expression `' '.join(tokens)`: concatenate the
tokens with a single space between consecutive tokens. -/
def joinSpace : List (List Char) → List Char
  | [] => []
  | [t] => t
  | t :: ts => t ++ ' ' :: joinSpace ts

/-- Embedding of `clean_text` (src/tools/web_parser_bs4.py lines 7-12):
`return ' '.join(text.split())`. -/
def clean_text (text : List Char) : List Char :=
  joinSpace (pySplit text)

/-- A Python exception, as far as this module can raise one on its own:
`NameError`, carrying the unresolved name. -/
inductive PyError where
  | nameError (name : String)
deriving DecidableEq

/-- The literal returned by `extract_text` for an unrecognised method
(src/tools/web_parser_bs4.py line 24). -/
def unsupportedMessage : List Char :=
  "Unsupported extraction method specified.".toList

/-- Embedding of `extract_text` (src/tools/web_parser_bs4.py lines 16-24).
The result pairs the Python outcome (normal return or raised exception) with
the list of URLs fetched over the network during the call.

If `method == "beautifulsoup"` the function executes
`return extract_text_bs4(url)`; the name `extract_text_bs4` is not defined
anywhere in the module, so evaluating it raises
`NameError: name 'extract_text_bs4' is not defined` before anything else
(in particular before any network fetch).  Otherwise the function returns
the literal sentinel string.  Neither branch reaches any code that performs
a fetch, so the fetch log is empty in both branches. -/
def extract_text (url : List Char) (method : String) :
    Except PyError (List Char) × List (List Char) :=
  if method = "beautifulsoup" then
    (Except.error (PyError.nameError "extract_text_bs4"), [])
  else
    (Except.ok unsupportedMessage, [])

/-- Embedding of the call `extract_text(url)` with the `method` parameter
omitted: the Python default parameter value `method="beautifulsoup"`
(src/tools/web_parser_bs4.py line 16) is substituted. -/
def extract_text_default (url : List Char) :
    Except PyError (List Char) × List (List Char) :=
  extract_text url "beautifulsoup"

/-- Drops characters until (and including) the first occurrence of the
pattern `pat`; helper for the spec-modelled extractor below.  `fuel` bounds
the scan. -/
def dropUntilAfter (pat : List Char) : Nat → List Char → List Char
  | 0, _ => []
  | _ + 1, [] => []
  | fuel + 1, c :: rest =>
    if pat.isPrefixOf (c :: rest) then (c :: rest).drop pat.length
    else dropUntilAfter pat fuel rest

/-- Modelled from the spec: removal of non-rendered elements.  The spec
(sections 4.2, 8 and the glossary) requires the Extractor to exclude the
content of non-rendered `script`/`style` elements from the visible text;
the function implementing the Extractor (`extract_text_bs4`) is missing
from the source, so this step is modelled from the words of the spec.
Everything from an opening `<script`/`<style` through the matching closing
tag is dropped; `fuel` bounds the scan. -/
def removeScriptStyle : Nat → List Char → List Char
  | 0, _ => []
  | _ + 1, [] => []
  | fuel + 1, c :: rest =>
    if ("<script".toList).isPrefixOf (c :: rest) then
      removeScriptStyle fuel (dropUntilAfter ("</script>".toList) (fuel + 1) (c :: rest))
    else if ("<style".toList).isPrefixOf (c :: rest) then
      removeScriptStyle fuel (dropUntilAfter ("</style>".toList) (fuel + 1) (c :: rest))
    else c :: removeScriptStyle fuel rest

/-- Modelled from the spec: markup stripping.  Removes every tag (everything
from `<` through the next `>`); the Boolean argument records whether the
scanner is currently inside a tag. -/
def removeTags : Bool → List Char → List Char
  | _, [] => []
  | true, c :: rest => if c = '>' then removeTags false rest else removeTags true rest
  | false, c :: rest => if c = '<' then removeTags true rest else c :: removeTags false rest

/-- Modelled from the spec: the Extractor (spec section 4.2).  The source
calls `extract_text_bs4`, which is missing from the module, so the Extractor
is modelled from the words of the spec: parse the markup, drop the content
of non-rendered `script`/`style` elements, collect the text content of the
remaining nodes in document order, and apply the cleaning transform. -/
def extractVisibleText (html : List Char) : List Char :=
  clean_text (removeTags false (removeScriptStyle (2 * html.length + 2) html))

/-- Every token produced by `pySplitAux` is non-empty and free of whitespace
characters, provided the accumulator is. -/
theorem pySplitAux_valid (s : List Char) : ∀ acc : List Char,
    (∀ c ∈ acc, isPySpace c = false) →
    ∀ t ∈ pySplitAux acc s, t ≠ [] ∧ ∀ c ∈ t, isPySpace c = false := by
  induction s with
  | nil =>
    intro acc hacc t ht
    by_cases h : acc = []
    · simp [pySplitAux, h] at ht
    · simp only [pySplitAux, if_neg h, List.mem_singleton] at ht
      subst ht
      refine ⟨by simpa using h, ?_⟩
      intro c hc
      exact hacc c (List.mem_reverse.mp hc)
  | cons c rest ih =>
    intro acc hacc t ht
    cases hws : isPySpace c with
    | true =>
      by_cases h : acc = []
      · simp only [pySplitAux, hws, if_pos h, if_true] at ht
        exact ih [] (by simp) t ht
      · simp only [pySplitAux, hws, if_neg h, if_true, List.mem_cons] at ht
        rcases ht with rfl | ht
        · refine ⟨by simpa using h, ?_⟩
          intro d hd
          exact hacc d (List.mem_reverse.mp hd)
        · exact ih [] (by simp) t ht
    | false =>
      simp only [pySplitAux, hws] at ht
      refine ih (c :: acc) ?_ t ht
      intro d hd
      rcases List.mem_cons.mp hd with rfl | hd
      · exact hws
      · exact hacc d hd

/-- Every token produced by `pySplit` is non-empty and free of whitespace
characters. -/
theorem pySplit_valid (s : List Char) :
    ∀ t ∈ pySplit s, t ≠ [] ∧ ∀ c ∈ t, isPySpace c = false :=
  pySplitAux_valid s [] (by simp)

/-- Concatenating the tokens of `pySplitAux` recovers the accumulator
followed by the non-whitespace characters of the input, in order. -/
theorem pySplitAux_flatten (s : List Char) : ∀ acc : List Char,
    (pySplitAux acc s).flatten = acc.reverse ++ s.filter (fun c => !isPySpace c) := by
  induction s with
  | nil =>
    intro acc
    by_cases h : acc = [] <;> simp [pySplitAux, h]
  | cons c rest ih =>
    intro acc
    cases hws : isPySpace c with
    | true =>
      by_cases h : acc = []
      · simp [pySplitAux, hws, h, ih, List.filter_cons]
      · simp [pySplitAux, hws, h, ih, List.filter_cons]
    | false =>
      simp [pySplitAux, hws, ih (c :: acc), List.filter_cons]

/-- Concatenating the tokens of `pySplit` recovers exactly the
non-whitespace characters of the input, in order. -/
theorem pySplit_flatten (s : List Char) :
    (pySplit s).flatten = s.filter (fun c => !isPySpace c) := by
  simpa using pySplitAux_flatten s []

/-- Filtering out whitespace from a whitespace-free list changes nothing. -/
theorem filter_nonws_eq_self (l : List Char) (h : ∀ c ∈ l, isPySpace c = false) :
    l.filter (fun c => !isPySpace c) = l := by
  induction l with
  | nil => rfl
  | cons c l ih =>
    rw [List.filter_cons]
    have hc : isPySpace c = false := h c (by simp)
    simp [hc, ih (fun d hd => h d (List.mem_cons_of_mem _ hd))]

/-- Filtering the whitespace out of a space-join of whitespace-free tokens
recovers exactly the concatenation of the tokens. -/
theorem joinSpace_filter (toks : List (List Char))
    (h : ∀ t ∈ toks, ∀ c ∈ t, isPySpace c = false) :
    (joinSpace toks).filter (fun c => !isPySpace c) = toks.flatten := by
  induction toks with
  | nil => rfl
  | cons t ts ih =>
    have ht : ∀ c ∈ t, isPySpace c = false := h t (by simp)
    have hts : ∀ u ∈ ts, ∀ c ∈ u, isPySpace c = false :=
      fun u hu => h u (List.mem_cons_of_mem _ hu)
    cases ts with
    | nil =>
      show t.filter (fun c => !isPySpace c) = t ++ []
      rw [List.append_nil]
      exact filter_nonws_eq_self t ht
    | cons u us =>
      have hj : joinSpace (t :: u :: us) = t ++ ' ' :: joinSpace (u :: us) := rfl
      have hfl : (t :: u :: us).flatten = t ++ (u :: us).flatten := rfl
      rw [hj, hfl, List.filter_append]
      have h1 : (' ' :: joinSpace (u :: us)).filter (fun c => !isPySpace c)
          = (joinSpace (u :: us)).filter (fun c => !isPySpace c) := by
        rw [List.filter_cons]
        simp [isPySpace]
      rw [h1, filter_nonws_eq_self t ht, ih hts]

/-- Scanning a whitespace-free prefix just moves it (reversed) into the
accumulator. -/
theorem pySplitAux_append_token (t : List Char) : ∀ acc rest : List Char,
    (∀ c ∈ t, isPySpace c = false) →
    pySplitAux acc (t ++ rest) = pySplitAux (t.reverse ++ acc) rest := by
  induction t with
  | nil => intro acc rest h; simp
  | cons c t' ih =>
    intro acc rest h
    have hc : isPySpace c = false := h c (by simp)
    show pySplitAux acc (c :: (t' ++ rest)) = _
    rw [show pySplitAux acc (c :: (t' ++ rest)) = pySplitAux (c :: acc) (t' ++ rest) by
      simp [pySplitAux, hc]]
    rw [ih (c :: acc) rest (fun d hd => h d (List.mem_cons_of_mem _ hd))]
    simp

/-- Splitting a space-join of non-empty whitespace-free tokens recovers the
tokens. -/
theorem pySplit_joinSpace (toks : List (List Char))
    (h : ∀ t ∈ toks, t ≠ [] ∧ ∀ c ∈ t, isPySpace c = false) :
    pySplit (joinSpace toks) = toks := by
  induction toks with
  | nil => rfl
  | cons t ts ih =>
    obtain ⟨hne, hnw⟩ := h t (by simp)
    have hts : ∀ u ∈ ts, u ≠ [] ∧ ∀ c ∈ u, isPySpace c = false :=
      fun u hu => h u (List.mem_cons_of_mem _ hu)
    cases ts with
    | nil =>
      show pySplitAux [] (joinSpace [t]) = [t]
      have : joinSpace [t] = t ++ [] := by simp [joinSpace]
      rw [this, pySplitAux_append_token t [] [] hnw]
      simp [pySplitAux, hne]
    | cons u us =>
      show pySplitAux [] (t ++ ' ' :: joinSpace (u :: us)) = t :: u :: us
      rw [pySplitAux_append_token t [] (' ' :: joinSpace (u :: us)) hnw]
      have hsp : isPySpace ' ' = true := rfl
      have hrev : t.reverse ++ [] = t.reverse := List.append_nil _
      rw [hrev]
      have hne' : t.reverse ≠ [] := by simpa using hne
      rw [show pySplitAux t.reverse (' ' :: joinSpace (u :: us))
          = t.reverse.reverse :: pySplitAux [] (joinSpace (u :: us)) by
        simp [pySplitAux, hsp, hne']]
      rw [List.reverse_reverse]
      exact congrArg (t :: ·) (ih hts)

/-- A list of whitespace-free characters has no two adjacent whitespace
characters. -/
theorem chain_of_forall_nonws (l : List Char) (h : ∀ c ∈ l, isPySpace c = false) :
    l.Chain' (fun a b => (isPySpace a && isPySpace b) = false) := by
  induction l with
  | nil => simp
  | cons c l ih =>
    rw [List.chain'_cons']
    constructor
    · intro b _
      simp [h c (by simp)]
    · exact ih (fun d hd => h d (List.mem_cons_of_mem _ hd))

/-- A space-join of non-empty whitespace-free tokens has no two adjacent
whitespace characters, and neither its first nor its last character is
whitespace. -/
theorem joinSpace_normalized (toks : List (List Char))
    (h : ∀ t ∈ toks, t ≠ [] ∧ ∀ c ∈ t, isPySpace c = false) :
    (joinSpace toks).Chain' (fun a b => (isPySpace a && isPySpace b) = false) ∧
      (∀ c ∈ (joinSpace toks).head?, isPySpace c = false) ∧
      (∀ c ∈ (joinSpace toks).getLast?, isPySpace c = false) := by
  induction toks with
  | nil => simp [joinSpace]
  | cons t ts ih =>
    obtain ⟨hne, hnw⟩ := h t (by simp)
    have hts : ∀ u ∈ ts, u ≠ [] ∧ ∀ c ∈ u, isPySpace c = false :=
      fun u hu => h u (List.mem_cons_of_mem _ hu)
    cases ts with
    | nil =>
      refine ⟨chain_of_forall_nonws t hnw, ?_, ?_⟩
      · intro c hc
        exact hnw c (List.mem_of_mem_head? hc)
      · intro c hc
        exact hnw c (List.mem_of_getLast?_eq_some hc)
    | cons u us =>
      obtain ⟨ihChain, ihHead, ihLast⟩ := ih hts
      have hjne : joinSpace (u :: us) ≠ [] := by
        obtain ⟨hune, _⟩ := hts u (by simp)
        cases us with
        | nil => simpa [joinSpace] using hune
        | cons v vs => simp [joinSpace, hune]
      have hj : joinSpace (t :: u :: us) = t ++ ' ' :: joinSpace (u :: us) := rfl
      rw [hj]
      refine ⟨?_, ?_, ?_⟩
      · rw [List.chain'_append]
        refine ⟨chain_of_forall_nonws t hnw, ?_, ?_⟩
        · rw [List.chain'_cons']
          exact ⟨fun b hb => by simp [ihHead b hb], ihChain⟩
        · intro x hx y hy
          rw [List.head?_cons, Option.mem_some_iff] at hy
          subst hy
          simp [hnw x (List.mem_of_getLast?_eq_some hx)]
      · intro c hc
        obtain ⟨a, t', rfl⟩ := List.exists_cons_of_ne_nil hne
        rw [List.cons_append, List.head?_cons, Option.mem_some_iff] at hc
        subst hc
        exact hnw a (by simp)
      · intro c hc
        rw [List.getLast?_append_of_ne_nil t (by simp)] at hc
        obtain ⟨a, j', hja⟩ := List.exists_cons_of_ne_nil hjne
        rw [hja, List.getLast?_cons_cons, ← hja] at hc
        exact ihLast c hc

/-- C1: the claim states that on `method = "beautifulsoup"` the Fetcher and
the Extractor run and the cleaned page text is returned.  The code instead
raises `NameError` at the concrete failing input below, because
`extract_text_bs4` is not defined: no fetch happens (the fetch log is
empty) and no text is returned.  This theorem evaluates the embedding at
the failing input. -/
theorem extract_text_bs4_branch_raises_at_demo_url :
    extract_text ("https://example.com".toList) "beautifulsoup"
      = (Except.error (PyError.nameError "extract_text_bs4"), []) := rfl

/-- C2: for every URL string, `extract_text(url, "beautifulsoup")` raises
`NameError` (the name `extract_text_bs4` is not defined anywhere in the
module), and no fetch ever happens on the supported path (the fetch log is
empty). -/
theorem extract_text_supported_raises_nameError (url : List Char) :
    extract_text url "beautifulsoup"
      = (Except.error (PyError.nameError "extract_text_bs4"), []) := rfl

/-- C3: for every URL string and every method other than `"beautifulsoup"`,
`extract_text` returns exactly the literal sentinel string as a normal
return value (no exception), and the Fetcher is never invoked (the fetch
log is empty). -/
theorem extract_text_unsupported_sentinel (url : List Char) (method : String)
    (h : method ≠ "beautifulsoup") :
    extract_text url method = (Except.ok unsupportedMessage, []) := by
  simp [extract_text, h]

/-- Witness for C3 at the concrete input `url = "not a url"`,
`method = "unknown"`. -/
theorem extract_text_unsupported_sentinel_witness :
    "unknown" ≠ "beautifulsoup" ∧
      extract_text ("not a url".toList) "unknown" = (Except.ok unsupportedMessage, []) :=
  ⟨by decide, extract_text_unsupported_sentinel ("not a url".toList) "unknown" (by decide)⟩

/-- C7: calling `extract_text(url)` with the method parameter omitted
behaves identically to calling `extract_text(url, "beautifulsoup")`
explicitly: same result, including the same raised error. -/
theorem extract_text_default_eq (url : List Char) :
    extract_text_default url = extract_text url "beautifulsoup" := rfl

/-- C8: `clean_text` applied to the empty string returns the empty
string. -/
theorem clean_text_empty : clean_text ("".toList) = "".toList := rfl

/-- C9: `clean_text "  a   b\n\tc  "` returns `"a b c"`. -/
theorem clean_text_example :
    clean_text ("  a   b\n\tc  ".toList) = "a b c".toList := rfl

/-- C4: for every input string, the output of `clean_text` contains no
substring of two or more consecutive whitespace characters (no two adjacent
characters are both whitespace, stated via `Chain'`), and its first and
last characters, when they exist, are not whitespace. -/
theorem clean_text_normalized (t : List Char) :
    (clean_text t).Chain' (fun a b => (isPySpace a && isPySpace b) = false) ∧
      (∀ c ∈ (clean_text t).head?, isPySpace c = false) ∧
      (∀ c ∈ (clean_text t).getLast?, isPySpace c = false) :=
  joinSpace_normalized (pySplit t) (pySplit_valid t)

/-- C5: the cleaning transform is idempotent:
`clean_text (clean_text x) = clean_text x` for every string `x`. -/
theorem clean_text_idempotent (x : List Char) :
    clean_text (clean_text x) = clean_text x := by
  show joinSpace (pySplit (joinSpace (pySplit x))) = joinSpace (pySplit x)
  rw [pySplit_joinSpace (pySplit x) (pySplit_valid x)]

/-- C10: `clean_text` only alters whitespace: the subsequence of
non-whitespace characters of the output equals the subsequence of
non-whitespace characters of the input (same characters, same order). -/
theorem clean_text_preserves_nonspace (t : List Char) :
    (clean_text t).filter (fun c => !isPySpace c) = t.filter (fun c => !isPySpace c) := by
  show (joinSpace (pySplit t)).filter (fun c => !isPySpace c) = _
  rw [joinSpace_filter (pySplit t) (fun u hu => (pySplit_valid t u hu).2),
    pySplit_flatten]

/-- C6: on the fixed HTML fixture, the Extractor (modelled from the spec,
since `extract_text_bs4` is missing from the source) returns exactly
`"Hello world"`, with the script element content excluded. -/
theorem extractVisibleText_fixture :
    extractVisibleText
        ("<html><body><p>Hello   world</p><script>ignored()</script></body></html>".toList)
      = "Hello world".toList := rfl
